import Mathlib

/-
Verification development for the brawe-extencion repository.

This file gives a shallow embedding of the video-detection pipeline of
"src/tabs manager/background.js" (request observer, per-tab registry with
dedup / size bound / TTL eviction, control-message interface) and of the
tab-line encode/decode helpers of "src/popup.js", together with proofs of
the behavioural properties stated in the specification.

Modelling conventions:
- JS strings are modelled as `List Char`; `String.prototype.includes` is
  `listContains`; `toLowerCase` is mapped ASCII lowercasing (`lowerL`),
  which agrees with JS on the ASCII strings all patterns consist of.
- JS numbers used as timestamps / tab ids are modelled as `Int`.
- The JS object `detectedVideos` is an association list with unique keys
  (`Registry`); property update/creation is `setTab`, property read is
  `lookupTab`, `delete` is `removeTab`.
- The five regular expressions in `VIDEO_PATTERNS.excludePatterns` are
  compiled by hand into suffix matchers over the reversed (lowercased,
  for the /i-flagged ones) character list; since in each pattern the
  token that follows a `\d+` (reading from the end) is not a digit, the
  greedy matcher is equivalent to the backtracking regex.
-/

namespace BraweExt

/-- JS `hay.includes(needle)`: `needle` occurs as a contiguous substring. -/
def listContains (hay needle : List Char) : Bool :=
  match hay with
  | [] => needle.isEmpty
  | _ :: t => needle.isPrefixOf hay || listContains t needle

/-- JS `toLowerCase` restricted to ASCII (all pattern literals are ASCII). -/
def lowerL (l : List Char) : List Char := l.map Char.toLower

/-- Consume one or more digits (`\d+`), greedily, returning the rest. -/
def eatDigits1 (l : List Char) : Option (List Char) :=
  match l with
  | [] => none
  | c :: rest => if c.isDigit then some (rest.dropWhile Char.isDigit) else none

/-- Consume an exact literal character sequence, returning the rest. -/
def expectChars (pat l : List Char) : Option (List Char) :=
  if pat.isPrefixOf l then some (l.drop pat.length) else none

/-- Matcher for `/seg-\d+-v\d+-a\d+\.ts$/i`, run on the reversed
lowercased URL. -/
def matchesSegTs (url : List Char) : Bool :=
  (do
    let r := (lowerL url).reverse
    let r ← expectChars ['s', 't', '.'] r
    let r ← eatDigits1 r
    let r ← expectChars ['a', '-'] r
    let r ← eatDigits1 r
    let r ← expectChars ['v', '-'] r
    let r ← eatDigits1 r
    let _ ← expectChars ['-', 'g', 'e', 's'] r
    pure ()).isSome

/-- Matcher for `/chunk-\d+\.ts$/i`. -/
def matchesChunkTs (url : List Char) : Bool :=
  (do
    let r := (lowerL url).reverse
    let r ← expectChars ['s', 't', '.'] r
    let r ← eatDigits1 r
    let _ ← expectChars ['-', 'k', 'n', 'u', 'h', 'c'] r
    pure ()).isSome

/-- Matcher for `/segment\d+\.ts$/i`. -/
def matchesSegmentTs (url : List Char) : Bool :=
  (do
    let r := (lowerL url).reverse
    let r ← expectChars ['s', 't', '.'] r
    let r ← eatDigits1 r
    let _ ← expectChars ['t', 'n', 'e', 'm', 'g', 'e', 's'] r
    pure ()).isSome

/-- Matcher for the fourth exclude regex, `-\d+\.ts` anchored at the end,
with the i flag. -/
def matchesDashNumTs (url : List Char) : Bool :=
  (do
    let r := (lowerL url).reverse
    let r ← expectChars ['s', 't', '.'] r
    let r ← eatDigits1 r
    let _ ← expectChars ['-'] r
    pure ()).isSome

/-- `VIDEO_PATTERNS.excludePatterns.some(p => p.test(url))`; the fifth
pattern `/\.ts\?/` has no /i flag and is a plain substring test. -/
def isExcluded (url : List Char) : Bool :=
  matchesSegTs url || matchesChunkTs url || matchesSegmentTs url ||
  matchesDashNumTs url || listContains url ('.' :: 't' :: 's' :: '?' :: [])

/-- `VIDEO_PATTERNS.extensions`. -/
def videoExtensions : List (List Char) :=
  [".mp4".toList, ".webm".toList, ".ogg".toList, ".mov".toList, ".avi".toList,
   ".mkv".toList, ".flv".toList, ".m4v".toList, ".3gp".toList, ".wmv".toList,
   ".m3u8".toList]

/-- `VIDEO_PATTERNS.mimeTypes`. -/
def videoMimeTypes : List (List Char) :=
  ["video/".toList, "application/x-mpegURL".toList,
   "application/vnd.apple.mpegurl".toList]

/-- The `isVideo` test of the onBeforeRequest listener:
`extensions.some(ext => url.toLowerCase().includes(ext)) ||
 url.includes('video') || url.includes('.m3u8') || url.includes('stream')`. -/
def isVideo (url : List Char) : Bool :=
  videoExtensions.any (fun ext => listContains (lowerL url) ext) ||
  listContains url "video".toList ||
  listContains url ".m3u8".toList ||
  listContains url "stream".toList

/-- Origin of a candidate record: the `type` field, `'network'` in the
onBeforeRequest listener and `'header'` in the onHeadersReceived one. -/
inductive Origin where
  | network
  | header
deriving DecidableEq

/-- One entry of `detectedVideos[tabId]`: `{url, timestamp, type}` plus,
on the header path only, `contentType`. -/
structure CandidateRecord where
  url : List Char
  timestamp : Int
  type : Origin
  contentType : Option (List Char)
deriving DecidableEq

/-- The `detectedVideos` JS object: tab id keyed association list. Keys
are unique in every reachable state (JS object property semantics). -/
abbrev Registry := List (Int × List CandidateRecord)

/-- Property read `detectedVideos[tabId]` (None models `undefined`). -/
def lookupTab (reg : Registry) (t : Int) : Option (List CandidateRecord) :=
  (reg.find? (fun p => p.1 == t)).map (fun p => p.2)

/-- Property write `detectedVideos[tabId] = v`: overwrite when the key is
present, create it otherwise. -/
def setTab (reg : Registry) (t : Int) (v : List CandidateRecord) : Registry :=
  if reg.any (fun p => p.1 == t) then
    reg.map (fun p => if p.1 == t then (t, v) else p)
  else
    reg ++ [(t, v)]

/-- JS `delete detectedVideos[tabId]`. -/
def removeTab (reg : Registry) (t : Int) : Registry :=
  reg.filter (fun p => p.1 != t)

/-- The dedup / bounded-push logic both listeners inline identically:
skip when a record with the same url exists, else push and, when the
length exceeds 50, `slice(-50)` (keep the 50 most recent). -/
def recordVideo (recs : List CandidateRecord) (r : CandidateRecord) :
    List CandidateRecord :=
  if recs.any (fun v => v.url == r.url) then recs
  else
    let recs1 := recs ++ [r]
    if recs1.length > 50 then recs1.drop (recs1.length - 50) else recs1

/-- Background script state: the `detectedVideos` map and the
`videoDownloaderEnabled` flag. -/
structure State where
  detectedVideos : Registry
  videoDownloaderEnabled : Bool
deriving DecidableEq

/-- State at script load: empty map, toggle defaulted to true. -/
def initState : State := ⟨[], true⟩

/-- Store a record for a tab (the `if (!detectedVideos[tabId])
detectedVideos[tabId] = []` initialisation followed by the dedup push). -/
def recordInState (s : State) (tabId : Int) (r : CandidateRecord) : State :=
  let cur := (lookupTab s.detectedVideos tabId).getD []
  { s with detectedVideos := setTab s.detectedVideos tabId (recordVideo cur r) }

/-- The chrome.webRequest.onBeforeRequest listener (network-body path). -/
def onBeforeRequest (s : State) (tabId : Int) (url : List Char) (now : Int) :
    State :=
  if !s.videoDownloaderEnabled then s
  else if tabId == -1 then s
  else if isExcluded url then s
  else if isVideo url && !listContains url "blob:".toList &&
          !listContains url "data:".toList then
    recordInState s tabId ⟨url, now, Origin.network, none⟩
  else s

/-- `details.responseHeaders?.find(h => h.name.toLowerCase() ===
'content-type')?.value?.toLowerCase()`. -/
def extractContentType (hdrs : List (List Char × List Char)) :
    Option (List Char) :=
  (hdrs.find? (fun h => lowerL h.1 == "content-type".toList)).map
    (fun h => lowerL h.2)

/-- `VIDEO_PATTERNS.mimeTypes.some(type => contentType.includes(type))`
(the content type has already been lowercased). -/
def mimeMatches (ct : List Char) : Bool :=
  videoMimeTypes.any (fun t => listContains ct t)

/-- The chrome.webRequest.onHeadersReceived listener (header path). Note
that it consults no exclude pattern: only the content-type decides. -/
def onHeadersReceived (s : State) (tabId : Int) (url : List Char)
    (hdrs : List (List Char × List Char)) (now : Int) : State :=
  if !s.videoDownloaderEnabled then s
  else if tabId == -1 then s
  else
    match extractContentType hdrs with
    | none => s
    | some ct =>
      if mimeMatches ct then
        recordInState s tabId ⟨url, now, Origin.header, some ct⟩
      else s

/-- Control messages the popup can send. -/
inductive Message where
  | setVideoDownloaderEnabled (enabled : Bool)
  | getDetectedVideos (tabId : Int)
  | clearDetectedVideos (tabId : Int)
deriving DecidableEq

/-- Shape of a `sendResponse` payload: a JS object whose fields are each
present or absent. -/
structure Response where
  success : Option Bool := none
  enabled : Option Bool := none
  videos : Option (List CandidateRecord) := none
  disabled : Option Bool := none
  error : Option (List Char) := none
deriving DecidableEq

/-- The chrome.runtime.onMessage listener body for the three recognised
actions; `request.enabled !== false` is the identity on booleans. -/
def handleMessage (s : State) (m : Message) : State × Response :=
  match m with
  | Message.setVideoDownloaderEnabled b =>
    ({ s with videoDownloaderEnabled := b },
     { success := some true, enabled := some b })
  | Message.getDetectedVideos t =>
    if !s.videoDownloaderEnabled then
      (s, { videos := some [], disabled := some true })
    else
      (s, { videos := some ((lookupTab s.detectedVideos t).getD []) })
  | Message.clearDetectedVideos t =>
    if !s.videoDownloaderEnabled then
      (s, { success := some true, disabled := some true })
    else
      ({ s with detectedVideos := setTab s.detectedVideos t [] },
       { success := some true })

/-- The try/catch wrapper of the onMessage listener: a thrown error is
converted into `sendResponse({error: error.message})`, the state left as
the handler found it. -/
def handleMessageCaught (body : Except (List Char) (State × Response))
    (s : State) : State × Response :=
  match body with
  | Except.ok r => r
  | Except.error e => (s, { error := some e })

/-- `maxAge` of the periodic sweep: 30 minutes in milliseconds. -/
def maxAge : Int := 30 * 60 * 1000

/-- One run of the 5-minute `setInterval` sweep: filter every tab's list
down to records with `now - timestamp < maxAge`, then delete tabs whose
list became empty. -/
def evictExpired (reg : Registry) (now : Int) : Registry :=
  (reg.map (fun p =>
    (p.1, p.2.filter (fun v => decide (now - v.timestamp < maxAge))))).filter
    (fun p => !p.2.isEmpty)

/-- Every event that can mutate the background-script state. -/
inductive Event where
  | beforeRequest (tabId : Int) (url : List Char) (now : Int)
  | headersReceived (tabId : Int) (url : List Char)
      (hdrs : List (List Char × List Char)) (now : Int)
  | message (m : Message)
  | sweep (now : Int)
  | tabRemoved (tabId : Int)
  | storageChanged (newValue : Bool)
deriving DecidableEq

/-- Single-threaded run-to-completion event semantics of the script. -/
def step (s : State) (e : Event) : State :=
  match e with
  | Event.beforeRequest t url now => onBeforeRequest s t url now
  | Event.headersReceived t url hdrs now => onHeadersReceived s t url hdrs now
  | Event.message m => (handleMessage s m).1
  | Event.sweep now => { s with detectedVideos := evictExpired s.detectedVideos now }
  | Event.tabRemoved t => { s with detectedVideos := removeTab s.detectedVideos t }
  | Event.storageChanged v => { s with videoDownloaderEnabled := v }

/-- State after a sequence of events starting at script load. -/
def runEvents (evs : List Event) : State := evs.foldl step initState

/-- Urls stored for a tab, in insertion order. -/
def urlsOf (s : State) (t : Int) : List (List Char) :=
  ((lookupTab s.detectedVideos t).getD []).map (fun r => r.url)

/-- Keys of the registry are pairwise distinct (JS object semantics). -/
def keysNodup (reg : Registry) : Prop := (reg.map Prod.fst).Nodup

/-- Every tab's list has pairwise distinct urls and at most 50 entries. -/
def goodTabs (reg : Registry) : Prop :=
  ∀ p ∈ reg, (p.2.map CandidateRecord.url).Nodup ∧ p.2.length ≤ 50

/-- Invariant maintained by every event handler. -/
def Inv (s : State) : Prop :=
  keysNodup s.detectedVideos ∧ goodTabs s.detectedVideos

/-- Acceptance test as the code actually implements it, reorganised: the
extension check is case-insensitive containment, while the substrings
"video" and "stream" are matched case-sensitively; the case-sensitive
".m3u8" clause of the source is redundant because ".m3u8" is also in the
extension list. -/
def acceptAmended (url : List Char) : Bool :=
  videoExtensions.any (fun ext => listContains (lowerL url) (lowerL ext)) ||
  listContains url "video".toList ||
  listContains url "stream".toList

/-- A blocking/modifying webRequest response (`{cancel: ...}`); the
observer never produces one — both listeners return `undefined`. -/
structure BlockingResponse where
  cancel : Bool
deriving DecidableEq

/-- Body of the onBeforeRequest listener inside its `try`, with the
classification steps abstracted as possibly-throwing computations
(`Except.error` models a thrown JS exception propagating). -/
def onBeforeRequestBody (exTest vidTest : List Char → Except (List Char) Bool)
    (s : State) (tabId : Int) (url : List Char) (now : Int) :
    Except (List Char) (State × Option BlockingResponse) :=
  if tabId == -1 then Except.ok (s, none)
  else
    match exTest url with
    | Except.error e => Except.error e
    | Except.ok true => Except.ok (s, none)
    | Except.ok false =>
      match vidTest url with
      | Except.error e => Except.error e
      | Except.ok v =>
        if v && !listContains url "blob:".toList &&
            !listContains url "data:".toList then
          Except.ok (recordInState s tabId ⟨url, now, Origin.network, none⟩, none)
        else Except.ok (s, none)

/-- The full onBeforeRequest listener: the enabled gate, then the body
wrapped in try/catch — a thrown classification error is caught, logged
and swallowed, the state at entry kept and no response returned. -/
def onBeforeRequestE (exTest vidTest : List Char → Except (List Char) Bool)
    (s : State) (tabId : Int) (url : List Char) (now : Int) :
    Except (List Char) (State × Option BlockingResponse) :=
  if !s.videoDownloaderEnabled then Except.ok (s, none)
  else
    match onBeforeRequestBody exTest vidTest s tabId url now with
    | Except.error _ => Except.ok (s, none)
    | r => r

/-- Body of the onHeadersReceived listener inside its `try`, with
content-type extraction and mime matching abstracted as possibly-throwing
computations. -/
def onHeadersReceivedBody
    (ctTest : List (List Char × List Char) → Except (List Char) (Option (List Char)))
    (mimeTest : List Char → Except (List Char) Bool)
    (s : State) (tabId : Int) (url : List Char)
    (hdrs : List (List Char × List Char)) (now : Int) :
    Except (List Char) (State × Option BlockingResponse) :=
  if tabId == -1 then Except.ok (s, none)
  else
    match ctTest hdrs with
    | Except.error e => Except.error e
    | Except.ok none => Except.ok (s, none)
    | Except.ok (some ct) =>
      match mimeTest ct with
      | Except.error e => Except.error e
      | Except.ok m =>
        if m then
          Except.ok (recordInState s tabId ⟨url, now, Origin.header, some ct⟩, none)
        else Except.ok (s, none)

/-- The full onHeadersReceived listener with its enabled gate and
try/catch wrapper. -/
def onHeadersReceivedE
    (ctTest : List (List Char × List Char) → Except (List Char) (Option (List Char)))
    (mimeTest : List Char → Except (List Char) Bool)
    (s : State) (tabId : Int) (url : List Char)
    (hdrs : List (List Char × List Char)) (now : Int) :
    Except (List Char) (State × Option BlockingResponse) :=
  if !s.videoDownloaderEnabled then Except.ok (s, none)
  else
    match onHeadersReceivedBody ctTest mimeTest s tabId url hdrs now with
    | Except.error _ => Except.ok (s, none)
    | r => r

/-- A full tab list of 50 records with pairwise distinct urls, used to
exercise the overflow behaviour at the bound. -/
def fiftyRecords : List CandidateRecord :=
  (List.range 50).map (fun i => ⟨[Char.ofNat (48 + i)], 0, Origin.network, none⟩)

/-- Records of the concrete sweep scenario: one record at the eviction
boundary and one strictly younger. -/
def sweepRecs : List CandidateRecord :=
  [⟨['a'], 0, Origin.network, none⟩, ⟨['b'], 1000000, Origin.network, none⟩]

/-- Concrete one-tab registry for the sweep scenario. -/
def sweepReg : Registry := [(1, sweepRecs)]

/-- A concrete disabled state holding one previously stored record. -/
def sDisabled : State :=
  ⟨[(4, [⟨['q'], 3, Origin.header, some "video/mp4".toList⟩])], false⟩

/-- A concrete enabled state holding one record. -/
def sEnabled : State := ⟨[(7, [⟨['w'], 2, Origin.network, none⟩])], true⟩

/-
Tab-line codec of popup.js. `encodeTabData` computes
`btoa(unescape(encodeURIComponent(JSON.stringify(data))))` where `data`
is `[tab.url, group.title, group.color]` or `[tab.url]`; the composite
`unescape(encodeURIComponent(s))` yields the UTF-8 bytes of `s` read as
latin-1 characters, so the pipeline is base64 of the UTF-8 bytes of the
JSON text. `decodeTabData` inverts it with
`JSON.parse(decodeURIComponent(escape(atob(encoded))))` and extracts the
fields with `data[i] || null` semantics, returning null on any thrown
exception. The three host builtins (JSON, UTF-8 transcoding, base64) are
modelled below; the JSON model covers the grammar the encoder can emit —
arrays of strings, with the standard string escapes.
-/

/-- The double-quote character. -/
def quoteChar : Char := Char.ofNat 34

/-- The backslash character. -/
def backslashChar : Char := Char.ofNat 92

/-- The padding character of base64. -/
def padChar : Char := '='

/-- Lower-case hex digit, as JSON.stringify emits in \u escapes. -/
def hexDigitChar (n : Nat) : Char := "0123456789abcdef".toList.getD n '0'

/-- Hex digit value accepted by JSON.parse (both cases). -/
def parseHexDigit (c : Char) : Option Nat :=
  if '0' ≤ c ∧ c ≤ '9' then some (c.toNat - 48)
  else if 'a' ≤ c ∧ c ≤ 'f' then some (c.toNat - 87)
  else if 'A' ≤ c ∧ c ≤ 'F' then some (c.toNat - 55)
  else none

/-- JSON.stringify escaping of one character: quote and backslash get a
backslash escape, control characters get the five short escapes or a
\u00xx escape, everything else is copied verbatim. -/
def jsonEscapeChar (c : Char) : List Char :=
  if c = quoteChar then [backslashChar, quoteChar]
  else if c = backslashChar then [backslashChar, backslashChar]
  else if c.toNat < 32 then
    if c.toNat = 8 then [backslashChar, 'b']
    else if c.toNat = 9 then [backslashChar, 't']
    else if c.toNat = 10 then [backslashChar, 'n']
    else if c.toNat = 12 then [backslashChar, 'f']
    else if c.toNat = 13 then [backslashChar, 'r']
    else [backslashChar, 'u', '0', '0',
      hexDigitChar (c.toNat / 16), hexDigitChar (c.toNat % 16)]
  else [c]

/-- A JSON string literal: quoted, escaped body. -/
def jsonQuote (s : List Char) : List Char :=
  quoteChar :: (s.map jsonEscapeChar).flatten ++ [quoteChar]

/-- Items of a non-empty JSON array of strings, comma separated, up to
and including the closing bracket. -/
def jsonItemsEncode : List (List Char) → List Char
  | [] => [']']
  | [x] => jsonQuote x ++ [']']
  | x :: xs => jsonQuote x ++ ',' :: jsonItemsEncode xs

/-- JSON.stringify of an array of strings (no whitespace). -/
def jsonStringifyStrArr (xs : List (List Char)) : List Char :=
  match xs with
  | [] => ['[', ']']
  | _ => '[' :: jsonItemsEncode xs

/-- JSON.parse of a string body after the opening quote: returns the
decoded content and the input remaining after the closing quote. Raw
control characters are rejected, escapes are decoded; a \u escape
denoting a surrogate is rejected (a lone surrogate is not a scalar
value; the encoder never emits one). -/
def jsonParseStringBody : List Char → Option (List Char × List Char)
  | [] => none
  | c :: rest =>
    if c = quoteChar then some ([], rest)
    else if c = backslashChar then
      match rest with
      | [] => none
      | e :: rest2 =>
        if e = quoteChar then
          (jsonParseStringBody rest2).map (fun p => (quoteChar :: p.1, p.2))
        else if e = backslashChar then
          (jsonParseStringBody rest2).map (fun p => (backslashChar :: p.1, p.2))
        else if e = '/' then
          (jsonParseStringBody rest2).map (fun p => ('/' :: p.1, p.2))
        else if e = 'b' then
          (jsonParseStringBody rest2).map (fun p => (Char.ofNat 8 :: p.1, p.2))
        else if e = 'f' then
          (jsonParseStringBody rest2).map (fun p => (Char.ofNat 12 :: p.1, p.2))
        else if e = 'n' then
          (jsonParseStringBody rest2).map (fun p => (Char.ofNat 10 :: p.1, p.2))
        else if e = 'r' then
          (jsonParseStringBody rest2).map (fun p => (Char.ofNat 13 :: p.1, p.2))
        else if e = 't' then
          (jsonParseStringBody rest2).map (fun p => (Char.ofNat 9 :: p.1, p.2))
        else if e = 'u' then
          match rest2 with
          | h1 :: h2 :: h3 :: h4 :: rest3 =>
            match parseHexDigit h1, parseHexDigit h2, parseHexDigit h3,
                parseHexDigit h4 with
            | some d1, some d2, some d3, some d4 =>
              let n := ((d1 * 16 + d2) * 16 + d3) * 16 + d4
              if n < 55296 ∨ 57344 ≤ n then
                (jsonParseStringBody rest3).map
                  (fun p => (Char.ofNat n :: p.1, p.2))
              else none
            | _, _, _, _ => none
          | _ => none
        else none
    else if c.toNat < 32 then none
    else (jsonParseStringBody rest).map (fun p => (c :: p.1, p.2))

/-- Items of a JSON array of strings after the opening bracket, fuelled
by the input length (every recursion consumes at least one character, so
length-many steps always suffice). -/
def jsonParseItemsAux : Nat → List Char → Option (List (List Char))
  | 0, _ => none
  | fuel + 1, l =>
    match l with
    | [] => none
    | c :: rest =>
      if c = quoteChar then
        match jsonParseStringBody rest with
        | none => none
        | some (s, rest1) =>
          match rest1 with
          | [] => none
          | c2 :: rest2 =>
            if c2 = ']' ∧ rest2 = [] then some [s]
            else if c2 = ',' then
              (jsonParseItemsAux fuel rest2).map (fun xs => s :: xs)
            else none
      else none

/-- Items of a JSON array of strings after the opening bracket. -/
def jsonParseItems (l : List Char) : Option (List (List Char)) :=
  jsonParseItemsAux l.length l

/-- JSON.parse restricted to the grammar of arrays of strings, consuming
the whole input. -/
def jsonParseStrArr (l : List Char) : Option (List (List Char)) :=
  match l with
  | [] => none
  | c :: rest =>
    if c = '[' then
      if rest = [']'] then some [] else jsonParseItems rest
    else none

/-- UTF-8 encoding of one scalar value. -/
def utf8EncodeChar (c : Char) : List Nat :=
  if c.toNat < 128 then [c.toNat]
  else if c.toNat < 2048 then [192 + c.toNat / 64, 128 + c.toNat % 64]
  else if c.toNat < 65536 then
    [224 + c.toNat / 4096, 128 + c.toNat / 64 % 64, 128 + c.toNat % 64]
  else
    [240 + c.toNat / 262144, 128 + c.toNat / 4096 % 64, 128 + c.toNat / 64 % 64,
     128 + c.toNat % 64]

/-- UTF-8 encoding of a string: the byte sequence
`unescape(encodeURIComponent(s))` denotes, as numbers. -/
def utf8Encode (s : List Char) : List Nat := (s.map utf8EncodeChar).flatten

/-- A UTF-8 continuation byte. -/
def isContByte (b : Nat) : Bool := 128 ≤ b && b < 192

/-- Decode one scalar value from a UTF-8 byte sequence, rejecting
overlong forms, surrogates and out-of-range values. -/
def utf8DecodeChar : List Nat → Option (Char × List Nat)
  | [] => none
  | b :: rest =>
    if b < 128 then some (Char.ofNat b, rest)
    else if b < 192 then none
    else if b < 224 then
      match rest with
      | b1 :: rest1 =>
        if isContByte b1 then
          let n := (b - 192) * 64 + (b1 - 128)
          if 128 ≤ n then some (Char.ofNat n, rest1) else none
        else none
      | _ => none
    else if b < 240 then
      match rest with
      | b1 :: b2 :: rest2 =>
        if isContByte b1 && isContByte b2 then
          let n := (b - 224) * 4096 + (b1 - 128) * 64 + (b2 - 128)
          if 2048 ≤ n ∧ (n < 55296 ∨ 57344 ≤ n) then
            some (Char.ofNat n, rest2)
          else none
        else none
      | _ => none
    else if b < 248 then
      match rest with
      | b1 :: b2 :: b3 :: rest3 =>
        if isContByte b1 && isContByte b2 && isContByte b3 then
          let n := (b - 240) * 262144 + (b1 - 128) * 4096 +
            (b2 - 128) * 64 + (b3 - 128)
          if 65536 ≤ n ∧ n < 1114112 then some (Char.ofNat n, rest3) else none
        else none
      | _ => none
    else none

/-- Fuelled UTF-8 decoding loop (each step consumes at least one byte,
so length-many steps always suffice). -/
def utf8DecodeAux : Nat → List Nat → Option (List Char)
  | _, [] => some []
  | 0, _ :: _ => none
  | fuel + 1, l =>
    match utf8DecodeChar l with
    | none => none
    | some (c, rest) => (utf8DecodeAux fuel rest).map (fun cs => c :: cs)

/-- UTF-8 decoding of a byte sequence: what
`decodeURIComponent(escape(bytes))` computes. -/
def utf8Decode (l : List Nat) : Option (List Char) := utf8DecodeAux l.length l

/-- The base64 alphabet used by btoa/atob. -/
def b64Alphabet : List Char :=
  "ABCDEFGHIJKLMNOPQRSTUVWXYZabcdefghijklmnopqrstuvwxyz0123456789+/".toList

/-- The base64 digit for a 6-bit group. -/
def b64Char (n : Nat) : Char := b64Alphabet.getD n '?'

/-- The 6-bit group of a base64 digit, none for a foreign character. -/
def b64Index (c : Char) : Option Nat := b64Alphabet.findIdx? (fun x => x == c)

/-- btoa: base64 of a byte sequence (bytes below 256; btoa throws on a
larger char code, which the UTF-8 step here never produces). -/
def btoaFn : List Nat → List Char
  | [] => []
  | [a] => [b64Char (a / 4), b64Char (a % 4 * 16), padChar, padChar]
  | [a, b] => [b64Char (a / 4), b64Char (a % 4 * 16 + b / 16),
               b64Char (b % 16 * 4), padChar]
  | a :: b :: c :: rest =>
    b64Char (a / 4) :: b64Char (a % 4 * 16 + b / 16) ::
    b64Char (b % 16 * 4 + c / 64) :: b64Char (c % 64) :: btoaFn rest

/-- atob: base64 decoding, none models the thrown InvalidCharacterError. -/
def atobFn : List Char → Option (List Nat)
  | [] => some []
  | c1 :: c2 :: c3 :: c4 :: rest =>
    match b64Index c1, b64Index c2 with
    | some a, some b =>
      if c3 = padChar ∧ c4 = padChar ∧ rest = [] then
        if b % 16 = 0 then some [a * 4 + b / 16] else none
      else if c4 = padChar ∧ rest = [] then
        match b64Index c3 with
        | some c =>
          if c % 4 = 0 then some [a * 4 + b / 16, b % 16 * 16 + c / 4]
          else none
        | none => none
      else
        match b64Index c3, b64Index c4 with
        | some c, some d =>
          (atobFn rest).map (fun bs =>
            (a * 4 + b / 16) :: (b % 16 * 16 + c / 4) :: (c % 4 * 64 + d) :: bs)
        | _, _ => none
    | _, _ => none
  | _ => none

/-- A tab group as consumed by encodeTabData: title and color. -/
structure GroupInfo where
  title : List Char
  color : List Char
deriving DecidableEq

/-- The object decodeTabData returns: none models JS null. -/
structure DecodedTab where
  url : List Char
  title : List Char
  groupTitle : Option (List Char)
  groupColor : Option (List Char)
deriving DecidableEq

/-- popup.js encodeTabData: the compact array (with group data omitted
when absent), stringified, UTF-8 encoded and base64 encoded. -/
def encodeTabData (tabUrl : List Char) (group : Option GroupInfo) :
    List Char :=
  let data := match group with
    | some g => [tabUrl, g.title, g.color]
    | none => [tabUrl]
  btoaFn (utf8Encode (jsonStringifyStrArr data))

/-- JS `data[i] || null`: undefined and the empty string map to null. -/
def jsFalsyIndex (data : List (List Char)) (i : Nat) : Option (List Char) :=
  match data.get? i with
  | none => none
  | some s => if s = [] then none else some s

/-- popup.js decodeTabData: decode base64, UTF-8 and JSON (none models
the caught exception returning null), then build the record; `data[0]`
is defaulted for the empty array although the encoder never produces
one. -/
def decodeTabData (encoded : List Char) : Option DecodedTab :=
  match atobFn encoded with
  | none => none
  | some bytes =>
    match utf8Decode bytes with
    | none => none
    | some json =>
      match jsonParseStrArr json with
      | none => none
      | some data =>
        some { url := (data.get? 0).getD [],
               title := [],
               groupTitle := jsFalsyIndex data 1,
               groupColor := jsFalsyIndex data 2 }

theorem lookupTab_any {reg : Registry} {t : Int} {l : List CandidateRecord}
    (h : lookupTab reg t = some l) : reg.any (fun p => p.1 == t) = true := by
  unfold lookupTab at h
  cases hf : reg.find? (fun p => p.1 == t) with
  | none => rw [hf] at h; simp at h
  | some p =>
    have hp := List.find?_some hf
    have hm := List.mem_of_find?_eq_some hf
    exact List.any_eq_true.mpr ⟨p, hm, hp⟩

theorem lookupTab_mem {reg : Registry} {t : Int} {l : List CandidateRecord}
    (h : lookupTab reg t = some l) : (t, l) ∈ reg := by
  unfold lookupTab at h
  cases hf : reg.find? (fun p => p.1 == t) with
  | none => rw [hf] at h; simp at h
  | some p =>
    rw [hf] at h
    have hp := List.find?_some hf
    have hm := List.mem_of_find?_eq_some hf
    simp at h hp
    obtain ⟨a, b⟩ := p
    simp at hp h
    rw [← hp, ← h]
    exact hm

theorem lookupTab_setTab_self (reg : Registry) (t : Int)
    (v : List CandidateRecord) : lookupTab (setTab reg t v) t = some v := by
  unfold setTab lookupTab
  by_cases hany : reg.any (fun p => p.1 == t) = true
  · rw [if_pos hany]
    rw [List.find?_map]
    have hfun : ((fun p : Int × List CandidateRecord => p.1 == t) ∘
        (fun p => if p.1 == t then (t, v) else p)) = (fun p => p.1 == t) := by
      funext q
      by_cases hq : q.1 = t <;> simp [hq]
    rw [hfun]
    have hsome : (reg.find? (fun p => p.1 == t)).isSome := by
      rw [List.find?_isSome]
      rcases List.any_eq_true.mp hany with ⟨p, hpm, hpt⟩
      exact ⟨p, hpm, hpt⟩
    obtain ⟨q, hq⟩ := Option.isSome_iff_exists.mp hsome
    rw [hq]
    have hqt : q.1 = t := by simpa using List.find?_some hq
    simp [hqt]
  · rw [if_neg hany]
    rw [List.find?_append]
    have hnone : reg.find? (fun p => p.1 == t) = none := by
      rw [List.find?_eq_none]
      intro x hx hc
      exact hany (List.any_eq_true.mpr ⟨x, hx, hc⟩)
    rw [hnone]
    simp

theorem setTab_keys_present {reg : Registry} {t : Int} {v : List CandidateRecord}
    (h : reg.any (fun p => p.1 == t) = true) :
    (setTab reg t v).map Prod.fst = reg.map Prod.fst := by
  unfold setTab
  rw [if_pos h, List.map_map]
  apply List.map_congr_left
  intro p _
  by_cases hp : p.1 = t
  · simp [hp]
  · simp [hp]

theorem keysNodup_setTab {reg : Registry} {t : Int} {v : List CandidateRecord}
    (h : keysNodup reg) : keysNodup (setTab reg t v) := by
  by_cases hany : reg.any (fun p => p.1 == t) = true
  · unfold keysNodup
    rw [setTab_keys_present hany]
    exact h
  · unfold keysNodup setTab
    rw [if_neg hany, List.map_append]
    simp only [List.map_cons, List.map_nil]
    apply List.Nodup.append h (List.nodup_singleton t)
    intro a ha hb
    simp only [List.mem_singleton] at hb
    subst hb
    rcases List.mem_map.mp ha with ⟨p, hpm, hpe⟩
    exact hany (List.any_eq_true.mpr ⟨p, hpm, by simp [hpe]⟩)

theorem map_set_eq_of_nodup (t : Int) (v : List CandidateRecord) :
    ∀ (reg : Registry), keysNodup reg → (t, v) ∈ reg →
      reg.map (fun p => if p.1 == t then (t, v) else p) = reg := by
  intro reg
  induction reg with
  | nil => intro _ hmem; simp at hmem
  | cons p rest ih =>
    intro hk hmem
    unfold keysNodup at hk
    simp only [List.map_cons, List.nodup_cons] at hk
    rcases List.mem_cons.mp hmem with heq | hrest
    · rw [← heq] at hk ⊢
      simp only [List.map_cons]
      have hht : t ∉ rest.map Prod.fst := by simpa using hk.1
      have htail : ∀ q ∈ rest, (if q.1 == t then (t, v) else q) = q := by
        intro q hq
        have hqt : q.1 ≠ t := by
          intro hc
          exact hht (hc ▸ List.mem_map.mpr ⟨q, hq, rfl⟩)
        simp [hqt]
      rw [List.map_congr_left htail]
      simp
    · have hpt : p.1 ≠ t := by
        intro hc
        apply hk.1
        rw [hc]
        exact List.mem_map.mpr ⟨(t, v), hrest, rfl⟩
      simp only [List.map_cons]
      rw [if_neg (by simp [hpt])]
      rw [ih hk.2 hrest]

theorem setTab_self_eq {reg : Registry} {t : Int} {v : List CandidateRecord}
    (hk : keysNodup reg) (h : lookupTab reg t = some v) : setTab reg t v = reg := by
  unfold setTab
  rw [if_pos (lookupTab_any h)]
  exact map_set_eq_of_nodup t v reg hk (lookupTab_mem h)

theorem mem_setTab {reg : Registry} {t : Int} {v : List CandidateRecord}
    {p : Int × List CandidateRecord} (h : p ∈ setTab reg t v) :
    p = (t, v) ∨ p ∈ reg := by
  unfold setTab at h
  by_cases hany : reg.any (fun q => q.1 == t) = true
  · rw [if_pos hany] at h
    rcases List.mem_map.mp h with ⟨q, hqm, hqe⟩
    by_cases hq : q.1 = t
    · left; rw [← hqe]; simp [hq]
    · right; rw [← hqe]; simp [hq]; exact hqm
  · rw [if_neg hany] at h
    rcases List.mem_append.mp h with hl | hr
    · right; exact hl
    · left; simpa using hr

theorem recordVideo_of_mem {recs : List CandidateRecord} {r : CandidateRecord}
    (h : r.url ∈ recs.map CandidateRecord.url) : recordVideo recs r = recs := by
  unfold recordVideo
  rcases List.mem_map.mp h with ⟨v, hvm, hve⟩
  rw [if_pos (List.any_eq_true.mpr ⟨v, hvm, by simp [hve]⟩)]

theorem url_mem_recordVideo (recs : List CandidateRecord) (r : CandidateRecord) :
    r.url ∈ (recordVideo recs r).map CandidateRecord.url := by
  unfold recordVideo
  by_cases hany : recs.any (fun v => v.url == r.url) = true
  · rw [if_pos hany]
    rcases List.any_eq_true.mp hany with ⟨v, hvm, hve⟩
    have hvu : v.url = r.url := by simpa using hve
    rw [← hvu]
    exact List.mem_map.mpr ⟨v, hvm, rfl⟩
  · rw [if_neg hany]
    simp only [List.length_append, List.length_singleton]
    by_cases hlen : recs.length + 1 > 50
    · rw [if_pos hlen]
      have hk : recs.length + 1 - 50 ≤ recs.length := by omega
      rw [List.drop_append_of_le_length hk]
      simp
    · rw [if_neg hlen]
      simp

theorem recordVideo_nodup {recs : List CandidateRecord} {r : CandidateRecord}
    (h : (recs.map CandidateRecord.url).Nodup) :
    ((recordVideo recs r).map CandidateRecord.url).Nodup := by
  unfold recordVideo
  by_cases hany : recs.any (fun v => v.url == r.url) = true
  · rw [if_pos hany]; exact h
  · rw [if_neg hany]
    have hnodup1 : ((recs ++ [r]).map CandidateRecord.url).Nodup := by
      rw [List.map_append]
      simp only [List.map_cons, List.map_nil]
      apply List.Nodup.append h (List.nodup_singleton r.url)
      intro a ha hb
      simp only [List.mem_singleton] at hb
      subst hb
      rcases List.mem_map.mp ha with ⟨v, hvm, hve⟩
      exact hany (List.any_eq_true.mpr ⟨v, hvm, by simp [hve]⟩)
    by_cases hlen : (recs ++ [r]).length > 50
    · rw [if_pos hlen]
      rw [List.map_drop]
      exact List.Nodup.sublist (List.drop_sublist _ _) hnodup1
    · rw [if_neg hlen]; exact hnodup1

theorem recordVideo_length {recs : List CandidateRecord} {r : CandidateRecord}
    (h : recs.length ≤ 50) : (recordVideo recs r).length ≤ 50 := by
  unfold recordVideo
  by_cases hany : recs.any (fun v => v.url == r.url) = true
  · rw [if_pos hany]; exact h
  · rw [if_neg hany]
    by_cases hlen : (recs ++ [r]).length > 50
    · rw [if_pos hlen]
      rw [List.length_drop]
      omega
    · rw [if_neg hlen]
      omega

theorem recordVideo_full {recs : List CandidateRecord} {r : CandidateRecord}
    (h50 : recs.length = 50) (hnew : r.url ∉ recs.map CandidateRecord.url) :
    recordVideo recs r = recs.drop 1 ++ [r] := by
  unfold recordVideo
  have hany : ¬recs.any (fun v => v.url == r.url) = true := by
    intro hc
    rcases List.any_eq_true.mp hc with ⟨v, hvm, hve⟩
    have hvu : v.url = r.url := by simpa using hve
    exact hnew (hvu ▸ List.mem_map.mpr ⟨v, hvm, rfl⟩)
  rw [if_neg hany]
  have hlen : (recs ++ [r]).length > 50 := by simp [h50]
  rw [if_pos hlen]
  have hd : (recs ++ [r]).length - 50 = 1 := by simp [h50]
  rw [hd, List.drop_append_of_le_length (by omega)]

theorem inv_recordInState {s : State} (h : Inv s) (t : Int)
    (r : CandidateRecord) : Inv (recordInState s t r) := by
  obtain ⟨hk, hg⟩ := h
  have hcur : (((lookupTab s.detectedVideos t).getD []).map
      CandidateRecord.url).Nodup ∧
      ((lookupTab s.detectedVideos t).getD []).length ≤ 50 := by
    cases hl : lookupTab s.detectedVideos t with
    | none => simp
    | some l =>
      simp only [Option.getD_some]
      exact hg (t, l) (lookupTab_mem hl)
  constructor
  · exact keysNodup_setTab hk
  · intro p hp
    rcases mem_setTab hp with heq | hmem
    · subst heq
      exact ⟨recordVideo_nodup hcur.1, recordVideo_length hcur.2⟩
    · exact hg p hmem

theorem keys_sublist_nodup {reg reg2 : Registry}
    (h : List.Sublist (reg2.map Prod.fst) (reg.map Prod.fst))
    (hk : keysNodup reg) : keysNodup reg2 := List.Nodup.sublist h hk

theorem evictExpired_keys (reg : Registry) (now : Int) :
    List.Sublist ((evictExpired reg now).map Prod.fst) (reg.map Prod.fst) := by
  unfold evictExpired
  have h1 := List.filter_sublist (p := fun p : Int × List CandidateRecord =>
    !p.2.isEmpty) (reg.map (fun p =>
    (p.1, p.2.filter (fun v => decide (now - v.timestamp < maxAge)))))
  have h2 := List.Sublist.map Prod.fst h1
  rw [List.map_map] at h2
  have h3 : (Prod.fst ∘ fun p : Int × List CandidateRecord =>
      (p.1, p.2.filter (fun v => decide (now - v.timestamp < maxAge)))) =
      Prod.fst := by
    funext p; rfl
  rw [h3] at h2
  exact h2

theorem mem_evictExpired {reg : Registry} {now : Int}
    {p : Int × List CandidateRecord} (h : p ∈ evictExpired reg now) :
    (∃ q ∈ reg,
      p = (q.1, q.2.filter (fun v => decide (now - v.timestamp < maxAge)))) ∧
    p.2 ≠ [] := by
  unfold evictExpired at h
  rw [List.mem_filter] at h
  obtain ⟨h1, h2⟩ := h
  constructor
  · rcases List.mem_map.mp h1 with ⟨q, hqm, hqe⟩
    exact ⟨q, hqm, hqe.symm⟩
  · intro hc
    rw [hc] at h2
    simp at h2

theorem inv_step {s : State} (h : Inv s) (e : Event) : Inv (step s e) := by
  cases e with
  | beforeRequest t url now =>
    simp only [step, onBeforeRequest]
    split
    · exact h
    · split
      · exact h
      · split
        · exact h
        · split
          · exact inv_recordInState h t _
          · exact h
  | headersReceived t url hdrs now =>
    simp only [step, onHeadersReceived]
    split
    · exact h
    · split
      · exact h
      · split
        · exact h
        · split
          · exact inv_recordInState h t _
          · exact h
  | message m =>
    cases m with
    | setVideoDownloaderEnabled b => exact ⟨h.1, h.2⟩
    | getDetectedVideos t =>
      simp only [step, handleMessage]
      split
      · exact h
      · exact h
    | clearDetectedVideos t =>
      simp only [step, handleMessage]
      split
      · exact h
      · constructor
        · exact keysNodup_setTab h.1
        · intro p hp
          rcases mem_setTab hp with heq | hmem
          · subst heq; simp
          · exact h.2 p hmem
  | sweep now =>
    constructor
    · exact keys_sublist_nodup (evictExpired_keys s.detectedVideos now) h.1
    · intro p hp
      rcases (mem_evictExpired hp).1 with ⟨q, hqm, hqe⟩
      subst hqe
      have hq := h.2 q hqm
      constructor
      · exact List.Nodup.sublist
          (List.Sublist.map _ (List.filter_sublist q.2)) hq.1
      · calc (q.2.filter _).length ≤ q.2.length := List.length_filter_le _ _
          _ ≤ 50 := hq.2
  | tabRemoved t =>
    constructor
    · exact keys_sublist_nodup
        (List.Sublist.map Prod.fst (List.filter_sublist s.detectedVideos)) h.1
    · intro p hp
      exact h.2 p (List.mem_of_mem_filter hp)
  | storageChanged v => exact ⟨h.1, h.2⟩

theorem inv_foldl : ∀ (evs : List Event) (s : State), Inv s →
    Inv (evs.foldl step s) := by
  intro evs
  induction evs with
  | nil => intro s hs; exact hs
  | cons e rest ih =>
    intro s hs
    exact ih (step s e) (inv_step hs e)

theorem inv_init : Inv initState := by
  constructor
  · simp [keysNodup, initState]
  · intro p hp
    simp [initState] at hp

theorem inv_runEvents (evs : List Event) : Inv (runEvents evs) :=
  inv_foldl evs initState inv_init

theorem mem_setTab_strong {reg : Registry} {t : Int} {v : List CandidateRecord}
    {p : Int × List CandidateRecord} (h : p ∈ setTab reg t v) :
    p = (t, v) ∨ (p ∈ reg ∧ p.1 ≠ t) := by
  unfold setTab at h
  by_cases hany : reg.any (fun q => q.1 == t) = true
  · rw [if_pos hany] at h
    rcases List.mem_map.mp h with ⟨q, hqm, hqe⟩
    by_cases hq : q.1 = t
    · left; rw [← hqe]; simp [hq]
    · right
      constructor
      · rw [← hqe]; simp [hq]; exact hqm
      · rw [← hqe]; simp [hq]
  · rw [if_neg hany] at h
    rcases List.mem_append.mp h with hl | hr
    · right
      refine ⟨hl, ?_⟩
      intro hc
      exact hany (List.any_eq_true.mpr ⟨p, hl, by simp [hc]⟩)
    · left; simpa using hr

theorem lookupTab_eq_none {reg : Registry} {t : Int}
    (h : ∀ p ∈ reg, p.1 ≠ t) : lookupTab reg t = none := by
  unfold lookupTab
  have : reg.find? (fun p => p.1 == t) = none := by
    rw [List.find?_eq_none]
    intro x hx
    simp [h x hx]
  rw [this]
  rfl

theorem evictExpired_cons (p : Int × List CandidateRecord) (rest : Registry)
    (now : Int) :
    evictExpired (p :: rest) now =
      (if (p.2.filter (fun v => decide (now - v.timestamp < maxAge))).isEmpty
       then evictExpired rest now
       else (p.1, p.2.filter (fun v => decide (now - v.timestamp < maxAge))) ::
         evictExpired rest now) := by
  unfold evictExpired
  simp only [List.map_cons, List.filter_cons]
  by_cases h : (p.2.filter (fun v => decide (now - v.timestamp < maxAge))).isEmpty
  · simp [h]
  · simp [h]

theorem lookupTab_evictExpired {reg : Registry} (hk : keysNodup reg)
    {t : Int} {l : List CandidateRecord} (now : Int)
    (hl : lookupTab reg t = some l) :
    lookupTab (evictExpired reg now) t =
      (if (l.filter (fun v => decide (now - v.timestamp < maxAge))).isEmpty
       then none
       else some (l.filter (fun v => decide (now - v.timestamp < maxAge)))) := by
  induction reg with
  | nil => simp [lookupTab] at hl
  | cons p rest ih =>
    unfold keysNodup at hk
    simp only [List.map_cons, List.nodup_cons] at hk
    rw [evictExpired_cons]
    by_cases hp : p.1 = t
    · have hl2 : l = p.2 := by
        unfold lookupTab at hl
        rw [List.find?_cons_of_pos _ (by simp [hp])] at hl
        simpa using hl.symm
      subst hl2
      by_cases hemp :
          (p.2.filter (fun v => decide (now - v.timestamp < maxAge))).isEmpty
      · rw [if_pos hemp, if_pos hemp]
        apply lookupTab_eq_none
        intro q hq
        rcases (mem_evictExpired hq).1 with ⟨q2, hq2m, hq2e⟩
        intro hc
        apply hk.1
        rw [hp]
        rw [hq2e] at hc
        simp at hc
        rw [← hc]
        exact List.mem_map.mpr ⟨q2, hq2m, rfl⟩
      · rw [if_neg hemp, if_neg hemp]
        unfold lookupTab
        rw [List.find?_cons_of_pos _ (by simp [hp])]
        rfl
    · have hl2 : lookupTab rest t = some l := by
        unfold lookupTab at hl ⊢
        rw [List.find?_cons_of_neg _ (by simp [hp])] at hl
        exact hl
      have ihr := ih hk.2 hl2
      by_cases hemp :
          (p.2.filter (fun v => decide (now - v.timestamp < maxAge))).isEmpty
      · rw [if_pos hemp]
        exact ihr
      · rw [if_neg hemp]
        unfold lookupTab at ihr ⊢
        rw [List.find?_cons_of_neg _ (by simp [hp])]
        exact ihr

theorem lookupTab_evict_setTab_empty (reg : Registry) (t now : Int) :
    lookupTab (evictExpired (setTab reg t []) now) t = none := by
  apply lookupTab_eq_none
  intro q hq
  obtain ⟨⟨p, hpm, hpe⟩, hne⟩ := mem_evictExpired hq
  intro hqt
  rcases mem_setTab_strong hpm with heq | ⟨_, hpt⟩
  · apply hne
    rw [hpe, heq]
    rfl
  · apply hpt
    rw [hpe] at hqt
    exact hqt

theorem recordInState_duplicate {s : State} {t : Int} {r : CandidateRecord}
    (hinv : Inv s) (hm : r.url ∈ urlsOf s t) : recordInState s t r = s := by
  unfold recordInState
  unfold urlsOf at hm
  cases hl : lookupTab s.detectedVideos t with
  | none => rw [hl] at hm; simp at hm
  | some l =>
    rw [hl] at hm
    simp only [Option.getD_some] at hm
    simp only [hl, Option.getD_some]
    rw [recordVideo_of_mem hm, setTab_self_eq hinv.1 hl]

theorem onBeforeRequest_duplicate {s : State} {t : Int} {url : List Char}
    (hinv : Inv s) (hm : url ∈ urlsOf s t) (now : Int) :
    onBeforeRequest s t url now = s := by
  unfold onBeforeRequest
  split
  · rfl
  · split
    · rfl
    · split
      · rfl
      · split
        · exact recordInState_duplicate hinv hm
        · rfl

theorem onHeadersReceived_duplicate {s : State} {t : Int} {url : List Char}
    {hdrs : List (List Char × List Char)} (hinv : Inv s)
    (hm : url ∈ urlsOf s t) (now : Int) :
    onHeadersReceived s t url hdrs now = s := by
  unfold onHeadersReceived
  split
  · rfl
  · split
    · rfl
    · split
      · rfl
      · split
        · exact recordInState_duplicate hinv hm
        · rfl

theorem isPrefixOf_map {n h : List Char} (f : Char → Char)
    (hp : n.isPrefixOf h = true) : (n.map f).isPrefixOf (h.map f) = true := by
  rw [List.isPrefixOf_iff_prefix] at hp ⊢
  exact List.IsPrefix.map f hp

theorem listContains_map {h n : List Char} (f : Char → Char)
    (hc : listContains h n = true) : listContains (h.map f) (n.map f) = true := by
  induction h with
  | nil =>
    unfold listContains at hc ⊢
    simp only [List.isEmpty_iff] at hc
    simp [hc]
  | cons c t ih =>
    unfold listContains at hc ⊢
    simp only [List.map_cons]
    rcases Bool.or_eq_true_iff.mp hc with h1 | h2
    · rw [← List.map_cons]
      rw [isPrefixOf_map f h1]
      simp
    · rw [ih h2]
      simp

theorem any_congr_mem {α : Type} {l : List α} {p q : α → Bool}
    (h : ∀ a ∈ l, p a = q a) : l.any p = l.any q := by
  induction l with
  | nil => rfl
  | cons a t ih =>
    simp only [List.any_cons]
    rw [h a (List.mem_cons_self a t),
      ih (fun b hb => h b (List.mem_cons_of_mem a hb))]

theorem or_absorb_third {a b c d : Bool} (h : c = true → a = true) :
    (a || b || c || d) = (a || b || d) := by
  cases c
  · simp
  · simp [h rfl]

theorem onBeforeRequestBody_shape
    (exTest vidTest : List Char → Except (List Char) Bool) (s : State)
    (tabId : Int) (url : List Char) (now : Int) :
    (∃ e, onBeforeRequestBody exTest vidTest s tabId url now = Except.error e) ∨
    (∃ s1, onBeforeRequestBody exTest vidTest s tabId url now =
      Except.ok (s1, none)) := by
  unfold onBeforeRequestBody
  split
  · right; exact ⟨s, rfl⟩
  · split
    · left; exact ⟨_, rfl⟩
    · right; exact ⟨s, rfl⟩
    · split
      · left; exact ⟨_, rfl⟩
      · split
        · right; exact ⟨_, rfl⟩
        · right; exact ⟨s, rfl⟩

theorem onHeadersReceivedBody_shape
    (ctTest : List (List Char × List Char) → Except (List Char) (Option (List Char)))
    (mimeTest : List Char → Except (List Char) Bool) (s : State)
    (tabId : Int) (url : List Char) (hdrs : List (List Char × List Char))
    (now : Int) :
    (∃ e, onHeadersReceivedBody ctTest mimeTest s tabId url hdrs now =
      Except.error e) ∨
    (∃ s1, onHeadersReceivedBody ctTest mimeTest s tabId url hdrs now =
      Except.ok (s1, none)) := by
  unfold onHeadersReceivedBody
  split
  · right; exact ⟨s, rfl⟩
  · split
    · left; exact ⟨_, rfl⟩
    · right; exact ⟨s, rfl⟩
    · split
      · left; exact ⟨_, rfl⟩
      · split
        · right; exact ⟨_, rfl⟩
        · right; exact ⟨s, rfl⟩

theorem char_valid_nat (c : Char) :
    c.toNat < 55296 ∨ (57343 < c.toNat ∧ c.toNat < 1114112) := c.valid

theorem utf8EncodeChar_lt_256 (c : Char) : ∀ b ∈ utf8EncodeChar c, b < 256 := by
  have hv := char_valid_nat c
  intro b hb
  unfold utf8EncodeChar at hb
  split at hb
  · simp at hb
    omega
  · split at hb
    · simp at hb
      rcases hb with h | h <;> omega
    · split at hb
      · simp at hb
        rcases hb with h | h | h <;> omega
      · simp at hb
        rcases hb with h | h | h | h <;> omega

theorem utf8Encode_lt_256 (s : List Char) : ∀ b ∈ utf8Encode s, b < 256 := by
  intro b hb
  unfold utf8Encode at hb
  rw [List.mem_flatten] at hb
  rcases hb with ⟨l, hl, hbl⟩
  rcases List.mem_map.mp hl with ⟨c, _, hce⟩
  exact utf8EncodeChar_lt_256 c b (hce ▸ hbl)

theorem utf8DecodeChar_encode (c : Char) (rest : List Nat) :
    utf8DecodeChar (utf8EncodeChar c ++ rest) = some (c, rest) := by
  have hv := char_valid_nat c
  unfold utf8EncodeChar
  by_cases h1 : c.toNat < 128
  · rw [if_pos h1]
    show utf8DecodeChar (c.toNat :: rest) = some (c, rest)
    simp only [utf8DecodeChar]
    rw [if_pos h1, Char.ofNat_toNat]
  · rw [if_neg h1]
    by_cases h2 : c.toNat < 2048
    · rw [if_pos h2]
      have hb1 : ¬(192 + c.toNat / 64 < 128) := by omega
      have hb2 : ¬(192 + c.toNat / 64 < 192) := by omega
      have hb3 : 192 + c.toNat / 64 < 224 := by omega
      have hc1 : isContByte (128 + c.toNat % 64) = true := by
        unfold isContByte
        simp only [Bool.and_eq_true, decide_eq_true_eq]
        omega
      have hn : (192 + c.toNat / 64 - 192) * 64 + (128 + c.toNat % 64 - 128) =
          c.toNat := by omega
      have hge : 128 ≤ c.toNat := by omega
      simp only [List.cons_append, List.nil_append, utf8DecodeChar, hb1, hb2,
        hb3, hc1, hn, hge, if_false, if_true, Char.ofNat_toNat, if_pos]
    · rw [if_neg h2]
      by_cases h3 : c.toNat < 65536
      · rw [if_pos h3]
        have hb1 : ¬(224 + c.toNat / 4096 < 128) := by omega
        have hb2 : ¬(224 + c.toNat / 4096 < 192) := by omega
        have hb3 : ¬(224 + c.toNat / 4096 < 224) := by omega
        have hb4 : 224 + c.toNat / 4096 < 240 := by omega
        have hc1 : isContByte (128 + c.toNat / 64 % 64) = true := by
          unfold isContByte
          simp only [Bool.and_eq_true, decide_eq_true_eq]
          omega
        have hc2 : isContByte (128 + c.toNat % 64) = true := by
          unfold isContByte
          simp only [Bool.and_eq_true, decide_eq_true_eq]
          omega
        have hn : (224 + c.toNat / 4096 - 224) * 4096 +
            (128 + c.toNat / 64 % 64 - 128) * 64 + (128 + c.toNat % 64 - 128) =
            c.toNat := by omega
        have hguard : 2048 ≤ c.toNat ∧
            (c.toNat < 55296 ∨ 57344 ≤ c.toNat) := by omega
        simp only [List.cons_append, List.nil_append, utf8DecodeChar, hb1, hb2,
          hb3, hb4, hc1, hc2, hn, hguard, if_false, if_true, Bool.and_self,
          Char.ofNat_toNat]
        simp
      · rw [if_neg h3]
        have hb1 : ¬(240 + c.toNat / 262144 < 128) := by omega
        have hb2 : ¬(240 + c.toNat / 262144 < 192) := by omega
        have hb3 : ¬(240 + c.toNat / 262144 < 224) := by omega
        have hb4 : ¬(240 + c.toNat / 262144 < 240) := by omega
        have hb5 : 240 + c.toNat / 262144 < 248 := by omega
        have hc1 : isContByte (128 + c.toNat / 4096 % 64) = true := by
          unfold isContByte
          simp only [Bool.and_eq_true, decide_eq_true_eq]
          omega
        have hc2 : isContByte (128 + c.toNat / 64 % 64) = true := by
          unfold isContByte
          simp only [Bool.and_eq_true, decide_eq_true_eq]
          omega
        have hc3 : isContByte (128 + c.toNat % 64) = true := by
          unfold isContByte
          simp only [Bool.and_eq_true, decide_eq_true_eq]
          omega
        have hn : (240 + c.toNat / 262144 - 240) * 262144 +
            (128 + c.toNat / 4096 % 64 - 128) * 4096 +
            (128 + c.toNat / 64 % 64 - 128) * 64 + (128 + c.toNat % 64 - 128) =
            c.toNat := by omega
        have hguard : 65536 ≤ c.toNat ∧ c.toNat < 1114112 := by omega
        simp only [List.cons_append, List.nil_append, utf8DecodeChar, hb1, hb2,
          hb3, hb4, hb5, hc1, hc2, hc3, hn, hguard, if_false, if_true,
          Bool.and_self, Char.ofNat_toNat]
        simp

theorem utf8EncodeChar_ne_nil (c : Char) : utf8EncodeChar c ≠ [] := by
  unfold utf8EncodeChar
  split
  · simp
  · split
    · simp
    · split
      · simp
      · simp

theorem utf8DecodeAux_encode :
    ∀ (s : List Char) (fuel : Nat), (utf8Encode s).length ≤ fuel →
      utf8DecodeAux fuel (utf8Encode s) = some s := by
  intro s
  induction s with
  | nil =>
    intro fuel _
    cases fuel <;> rfl
  | cons c s ih =>
    intro fuel hlen
    have henc : utf8Encode (c :: s) = utf8EncodeChar c ++ utf8Encode s := by
      simp [utf8Encode]
    rcases List.exists_cons_of_ne_nil (utf8EncodeChar_ne_nil c) with ⟨b, bs, hb⟩
    cases fuel with
    | zero =>
      exfalso
      rw [henc, hb] at hlen
      simp at hlen
    | succ f =>
      rw [henc, hb, List.cons_append]
      have hdec : utf8DecodeChar (b :: (bs ++ utf8Encode s)) =
          some (c, utf8Encode s) := by
        rw [← List.cons_append, ← hb]
        exact utf8DecodeChar_encode c (utf8Encode s)
      have hle : (utf8Encode s).length ≤ f := by
        rw [henc, hb] at hlen
        simp at hlen
        omega
      simp only [utf8DecodeAux, hdec]
      rw [ih f hle]
      rfl

theorem utf8Decode_encode (s : List Char) :
    utf8Decode (utf8Encode s) = some s :=
  utf8DecodeAux_encode s (utf8Encode s).length (Nat.le_refl _)

theorem b64Index_b64Char : ∀ n, n < 64 → b64Index (b64Char n) = some n := by
  decide

theorem b64Char_ne_pad : ∀ n, n < 64 → b64Char n ≠ padChar := by decide

theorem atob_btoa : ∀ (bs : List Nat), (∀ b ∈ bs, b < 256) →
    atobFn (btoaFn bs) = some bs
  | [], _ => rfl
  | [a], h => by
    have ha : a < 256 := h a (by simp)
    have h1 : b64Index (b64Char (a / 4)) = some (a / 4) :=
      b64Index_b64Char _ (by omega)
    have h2 : b64Index (b64Char (a % 4 * 16)) = some (a % 4 * 16) :=
      b64Index_b64Char _ (by omega)
    have g1 : a % 4 * 16 % 16 = 0 := by omega
    have e1 : a / 4 * 4 + a % 4 * 16 / 16 = a := by omega
    simp only [btoaFn, atobFn, h1, h2, g1, e1, eq_self_iff_true, and_self,
      and_true, true_and, if_true]
  | [a, b], h => by
    have ha : a < 256 := h a (by simp)
    have hb : b < 256 := h b (by simp)
    have h1 : b64Index (b64Char (a / 4)) = some (a / 4) :=
      b64Index_b64Char _ (by omega)
    have h2 : b64Index (b64Char (a % 4 * 16 + b / 16)) =
        some (a % 4 * 16 + b / 16) := b64Index_b64Char _ (by omega)
    have h3 : b64Index (b64Char (b % 16 * 4)) = some (b % 16 * 4) :=
      b64Index_b64Char _ (by omega)
    have hp1 : (b64Char (b % 16 * 4) = padChar) = False :=
      eq_false (b64Char_ne_pad _ (by omega))
    have g2 : b % 16 * 4 % 4 = 0 := by omega
    have e1 : a / 4 * 4 + (a % 4 * 16 + b / 16) / 16 = a := by omega
    have e2 : (a % 4 * 16 + b / 16) % 16 * 16 + b % 16 * 4 / 4 = b := by omega
    simp only [btoaFn, atobFn, h1, h2, h3, hp1, g2, e1, e2, eq_self_iff_true,
      and_self, and_true, true_and, false_and, if_true, if_false]
  | a :: b :: c :: rest, h => by
    have ha : a < 256 := h a (by simp)
    have hb : b < 256 := h b (by simp)
    have hc : c < 256 := h c (by simp)
    have ih := atob_btoa rest (fun x hx => h x (by simp [hx]))
    have h1 : b64Index (b64Char (a / 4)) = some (a / 4) :=
      b64Index_b64Char _ (by omega)
    have h2 : b64Index (b64Char (a % 4 * 16 + b / 16)) =
        some (a % 4 * 16 + b / 16) := b64Index_b64Char _ (by omega)
    have h3 : b64Index (b64Char (b % 16 * 4 + c / 64)) =
        some (b % 16 * 4 + c / 64) := b64Index_b64Char _ (by omega)
    have h4 : b64Index (b64Char (c % 64)) = some (c % 64) :=
      b64Index_b64Char _ (by omega)
    have hp1 : (b64Char (b % 16 * 4 + c / 64) = padChar) = False :=
      eq_false (b64Char_ne_pad _ (by omega))
    have hp2 : (b64Char (c % 64) = padChar) = False :=
      eq_false (b64Char_ne_pad _ (by omega))
    have e1 : a / 4 * 4 + (a % 4 * 16 + b / 16) / 16 = a := by omega
    have e2 : (a % 4 * 16 + b / 16) % 16 * 16 + (b % 16 * 4 + c / 64) / 4 = b := by
      omega
    have e3 : (b % 16 * 4 + c / 64) % 4 * 64 + c % 64 = c := by omega
    simp only [btoaFn, atobFn, h1, h2, h3, h4, hp1, hp2, ih, e1, e2, e3,
      false_and, and_false, if_false, Option.map_some']

theorem parseHexDigit_hexDigitChar :
    ∀ m, m < 16 → parseHexDigit (hexDigitChar m) = some m := by decide

theorem jsonParseStringBody_escape (c : Char) (T : List Char) :
    jsonParseStringBody (jsonEscapeChar c ++ T) =
      (jsonParseStringBody T).map (fun p => (c :: p.1, p.2)) := by
  have fbq : (backslashChar = quoteChar) = False := eq_false (by decide)
  by_cases hq : c = quoteChar
  · subst hq
    simp only [jsonEscapeChar, eq_self_iff_true, if_true,
      List.cons_append, List.nil_append]
    rw [jsonParseStringBody.eq_def]
    simp only [fbq, eq_self_iff_true, if_true, if_false]
  · by_cases hbs : c = backslashChar
    · subst hbs
      simp only [jsonEscapeChar, fbq, eq_self_iff_true, if_true, if_false,
        List.cons_append, List.nil_append]
      rw [jsonParseStringBody.eq_def]
      simp only [fbq, eq_self_iff_true, if_true, if_false]
    · by_cases h32 : c.toNat < 32
      · by_cases h8 : c.toNat = 8
        · have hc : c = Char.ofNat 8 := by rw [← Char.ofNat_toNat c, h8]
          subst hc
          have g1 : (Char.ofNat 8 = quoteChar) = False := eq_false (by decide)
          have g2 : (Char.ofNat 8 = backslashChar) = False :=
            eq_false (by decide)
          have g3 : ((Char.ofNat 8).toNat < 32) = True := eq_true (by decide)
          have g4 : ((Char.ofNat 8).toNat = 8) = True := eq_true (by decide)
          have p1 : (('b' : Char) = quoteChar) = False := eq_false (by decide)
          have p2 : (('b' : Char) = backslashChar) = False :=
            eq_false (by decide)
          have p3 : (('b' : Char) = '/') = False := eq_false (by decide)
          simp only [jsonEscapeChar, g1, g2, g3, g4, eq_self_iff_true,
            if_true, if_false, List.cons_append, List.nil_append]
          rw [jsonParseStringBody.eq_def]
          simp only [fbq, p1, p2, p3, eq_self_iff_true, if_true, if_false]
        · by_cases h9 : c.toNat = 9
          · have hc : c = Char.ofNat 9 := by rw [← Char.ofNat_toNat c, h9]
            subst hc
            have g1 : (Char.ofNat 9 = quoteChar) = False := eq_false (by decide)
            have g2 : (Char.ofNat 9 = backslashChar) = False :=
              eq_false (by decide)
            have g3 : ((Char.ofNat 9).toNat < 32) = True := eq_true (by decide)
            have g4 : ((Char.ofNat 9).toNat = 8) = False := eq_false (by decide)
            have g5 : ((Char.ofNat 9).toNat = 9) = True := eq_true (by decide)
            have p1 : (('t' : Char) = quoteChar) = False := eq_false (by decide)
            have p2 : (('t' : Char) = backslashChar) = False :=
              eq_false (by decide)
            have p3 : (('t' : Char) = '/') = False := eq_false (by decide)
            have p4 : (('t' : Char) = 'b') = False := eq_false (by decide)
            have p5 : (('t' : Char) = 'f') = False := eq_false (by decide)
            have p6 : (('t' : Char) = 'n') = False := eq_false (by decide)
            have p7 : (('t' : Char) = 'r') = False := eq_false (by decide)
            simp only [jsonEscapeChar, g1, g2, g3, g4, g5, eq_self_iff_true,
              if_true, if_false, List.cons_append, List.nil_append]
            rw [jsonParseStringBody.eq_def]
            simp only [fbq, p1, p2, p3, p4, p5, p6, p7, eq_self_iff_true,
              if_true, if_false]
          · by_cases h10 : c.toNat = 10
            · have hc : c = Char.ofNat 10 := by rw [← Char.ofNat_toNat c, h10]
              subst hc
              have g1 : (Char.ofNat 10 = quoteChar) = False :=
                eq_false (by decide)
              have g2 : (Char.ofNat 10 = backslashChar) = False :=
                eq_false (by decide)
              have g3 : ((Char.ofNat 10).toNat < 32) = True :=
                eq_true (by decide)
              have g4 : ((Char.ofNat 10).toNat = 8) = False :=
                eq_false (by decide)
              have g5 : ((Char.ofNat 10).toNat = 9) = False :=
                eq_false (by decide)
              have g6 : ((Char.ofNat 10).toNat = 10) = True :=
                eq_true (by decide)
              have p1 : (('n' : Char) = quoteChar) = False :=
                eq_false (by decide)
              have p2 : (('n' : Char) = backslashChar) = False :=
                eq_false (by decide)
              have p3 : (('n' : Char) = '/') = False := eq_false (by decide)
              have p4 : (('n' : Char) = 'b') = False := eq_false (by decide)
              have p5 : (('n' : Char) = 'f') = False := eq_false (by decide)
              simp only [jsonEscapeChar, g1, g2, g3, g4, g5, g6,
                eq_self_iff_true, if_true, if_false, List.cons_append,
                List.nil_append]
              rw [jsonParseStringBody.eq_def]
              simp only [fbq, p1, p2, p3, p4, p5, eq_self_iff_true, if_true,
                if_false]
            · by_cases h12 : c.toNat = 12
              · have hc : c = Char.ofNat 12 := by
                  rw [← Char.ofNat_toNat c, h12]
                subst hc
                have g1 : (Char.ofNat 12 = quoteChar) = False :=
                  eq_false (by decide)
                have g2 : (Char.ofNat 12 = backslashChar) = False :=
                  eq_false (by decide)
                have g3 : ((Char.ofNat 12).toNat < 32) = True :=
                  eq_true (by decide)
                have g4 : ((Char.ofNat 12).toNat = 8) = False :=
                  eq_false (by decide)
                have g5 : ((Char.ofNat 12).toNat = 9) = False :=
                  eq_false (by decide)
                have g6 : ((Char.ofNat 12).toNat = 10) = False :=
                  eq_false (by decide)
                have g7 : ((Char.ofNat 12).toNat = 12) = True :=
                  eq_true (by decide)
                have p1 : (('f' : Char) = quoteChar) = False :=
                  eq_false (by decide)
                have p2 : (('f' : Char) = backslashChar) = False :=
                  eq_false (by decide)
                have p3 : (('f' : Char) = '/') = False := eq_false (by decide)
                have p4 : (('f' : Char) = 'b') = False := eq_false (by decide)
                simp only [jsonEscapeChar, g1, g2, g3, g4, g5, g6, g7,
                  eq_self_iff_true, if_true, if_false, List.cons_append,
                  List.nil_append]
                rw [jsonParseStringBody.eq_def]
                simp only [fbq, p1, p2, p3, p4, eq_self_iff_true, if_true,
                  if_false]
              · by_cases h13 : c.toNat = 13
                · have hc : c = Char.ofNat 13 := by
                    rw [← Char.ofNat_toNat c, h13]
                  subst hc
                  have g1 : (Char.ofNat 13 = quoteChar) = False :=
                    eq_false (by decide)
                  have g2 : (Char.ofNat 13 = backslashChar) = False :=
                    eq_false (by decide)
                  have g3 : ((Char.ofNat 13).toNat < 32) = True :=
                    eq_true (by decide)
                  have g4 : ((Char.ofNat 13).toNat = 8) = False :=
                    eq_false (by decide)
                  have g5 : ((Char.ofNat 13).toNat = 9) = False :=
                    eq_false (by decide)
                  have g6 : ((Char.ofNat 13).toNat = 10) = False :=
                    eq_false (by decide)
                  have g7 : ((Char.ofNat 13).toNat = 12) = False :=
                    eq_false (by decide)
                  have g8 : ((Char.ofNat 13).toNat = 13) = True :=
                    eq_true (by decide)
                  have p1 : (('r' : Char) = quoteChar) = False :=
                    eq_false (by decide)
                  have p2 : (('r' : Char) = backslashChar) = False :=
                    eq_false (by decide)
                  have p3 : (('r' : Char) = '/') = False := eq_false (by decide)
                  have p4 : (('r' : Char) = 'b') = False := eq_false (by decide)
                  have p5 : (('r' : Char) = 'f') = False := eq_false (by decide)
                  have p6 : (('r' : Char) = 'n') = False := eq_false (by decide)
                  simp only [jsonEscapeChar, g1, g2, g3, g4, g5, g6, g7, g8,
                    eq_self_iff_true, if_true, if_false, List.cons_append,
                    List.nil_append]
                  rw [jsonParseStringBody.eq_def]
                  simp only [fbq, p1, p2, p3, p4, p5, p6, eq_self_iff_true,
                    if_true, if_false]
                · unfold jsonEscapeChar
                  rw [if_neg hq, if_neg hbs, if_pos h32, if_neg h8, if_neg h9,
                    if_neg h10, if_neg h12, if_neg h13]
                  have e0 : parseHexDigit '0' = some 0 := by decide
                  have eh : parseHexDigit (hexDigitChar (c.toNat / 16)) =
                      some (c.toNat / 16) :=
                    parseHexDigit_hexDigitChar _ (by omega)
                  have el : parseHexDigit (hexDigitChar (c.toNat % 16)) =
                      some (c.toNat % 16) :=
                    parseHexDigit_hexDigitChar _ (by omega)
                  have hn : ((0 * 16 + 0) * 16 + c.toNat / 16) * 16 +
                      c.toNat % 16 = c.toNat := by omega
                  have hvalT : (c.toNat < 55296 ∨ 57344 ≤ c.toNat) = True :=
                    eq_true (Or.inl (by omega))
                  have f1 : (backslashChar = quoteChar) = False :=
                    eq_false (by decide)
                  have f2 : (('u' : Char) = quoteChar) = False :=
                    eq_false (by decide)
                  have f3 : (('u' : Char) = backslashChar) = False :=
                    eq_false (by decide)
                  have f4 : (('u' : Char) = '/') = False := eq_false (by decide)
                  have f5 : (('u' : Char) = 'b') = False := eq_false (by decide)
                  have f6 : (('u' : Char) = 'f') = False := eq_false (by decide)
                  have f7 : (('u' : Char) = 'n') = False := eq_false (by decide)
                  have f8 : (('u' : Char) = 'r') = False := eq_false (by decide)
                  have f9 : (('u' : Char) = 't') = False := eq_false (by decide)
                  simp only [List.cons_append, List.nil_append]
                  rw [jsonParseStringBody.eq_def]
                  simp only [f1, f2, f3, f4, f5, f6, f7, f8, f9,
                    eq_self_iff_true, if_true, if_false, e0, eh, el, hn,
                    hvalT, Char.ofNat_toNat]
      · unfold jsonEscapeChar
        rw [if_neg hq, if_neg hbs, if_neg h32]
        show jsonParseStringBody (c :: T) = _
        rw [jsonParseStringBody.eq_def]
        simp only [if_neg hq, if_neg hbs, if_neg h32]

theorem jsonParseStringBody_encode (s rest : List Char) :
    jsonParseStringBody ((s.map jsonEscapeChar).flatten ++ quoteChar :: rest) =
      some (s, rest) := by
  induction s with
  | nil =>
    simp only [List.map_nil, List.flatten_nil, List.nil_append]
    rw [jsonParseStringBody.eq_def]
    simp only [eq_self_iff_true, if_true]
  | cons c s ih =>
    simp only [List.map_cons, List.flatten_cons, List.append_assoc]
    rw [jsonParseStringBody_escape, ih]
    rfl

theorem jsonItemsEncode_length_pos (xs : List (List Char)) :
    0 < (jsonItemsEncode xs).length := by
  match xs with
  | [] => simp [jsonItemsEncode]
  | [x] => simp [jsonItemsEncode]
  | x :: y :: ys => simp [jsonItemsEncode, jsonQuote]

theorem jsonParseItemsAux_encode :
    ∀ (xs : List (List Char)) (fuel : Nat), xs ≠ [] →
      (jsonItemsEncode xs).length ≤ fuel →
      jsonParseItemsAux fuel (jsonItemsEncode xs) = some xs := by
  intro xs
  induction xs with
  | nil => intro fuel h _; exact absurd rfl h
  | cons x xs ih =>
    intro fuel _ hlen
    cases fuel with
    | zero =>
      exfalso
      have := jsonItemsEncode_length_pos (x :: xs)
      omega
    | succ f =>
      cases xs with
      | nil =>
        have henc : jsonItemsEncode [x] =
            quoteChar :: ((x.map jsonEscapeChar).flatten ++
              quoteChar :: [']']) := by
          simp [jsonItemsEncode, jsonQuote]
        rw [henc]
        simp only [jsonParseItemsAux, eq_self_iff_true, if_true]
        rw [jsonParseStringBody_encode]
        simp
      | cons y ys =>
        have henc : jsonItemsEncode (x :: y :: ys) =
            quoteChar :: ((x.map jsonEscapeChar).flatten ++
              quoteChar :: ',' :: jsonItemsEncode (y :: ys)) := by
          simp [jsonItemsEncode, jsonQuote]
        have hlen2 : (jsonItemsEncode (y :: ys)).length ≤ f := by
          rw [henc] at hlen
          simp at hlen
          omega
        rw [henc]
        simp only [jsonParseItemsAux, eq_self_iff_true, if_true]
        rw [jsonParseStringBody_encode]
        have f1 : ((',' : Char) = ']') = False := eq_false (by decide)
        simp only [f1, false_and, if_false, eq_self_iff_true, if_true]
        rw [ih f (by simp) hlen2]
        rfl

theorem jsonParse_stringify (xs : List (List Char)) :
    jsonParseStrArr (jsonStringifyStrArr xs) = some xs := by
  cases xs with
  | nil => rfl
  | cons x xs =>
    show jsonParseStrArr ('[' :: jsonItemsEncode (x :: xs)) = some (x :: xs)
    have hhead : ∃ t, jsonItemsEncode (x :: xs) = quoteChar :: t := by
      cases xs with
      | nil =>
        exact ⟨(x.map jsonEscapeChar).flatten ++ quoteChar :: [']'],
          by simp [jsonItemsEncode, jsonQuote]⟩
      | cons y ys =>
        exact ⟨(x.map jsonEscapeChar).flatten ++
          quoteChar :: ',' :: jsonItemsEncode (y :: ys),
          by simp [jsonItemsEncode, jsonQuote]⟩
    rcases hhead with ⟨t, ht⟩
    simp only [jsonParseStrArr, eq_self_iff_true, if_true]
    rw [ht]
    rw [if_neg ?hne]
    case hne =>
      intro hc
      injection hc with hc1 _
      exact absurd hc1 (by decide)
    rw [← ht]
    show jsonParseItemsAux (jsonItemsEncode (x :: xs)).length
      (jsonItemsEncode (x :: xs)) = some (x :: xs)
    exact jsonParseItemsAux_encode (x :: xs) _ (by simp) (Nat.le_refl _)

/-- Claim C1, counterexample: the claim says no URL matching an exclude
pattern is ever recorded on either path, but the header path does not
consult the exclude patterns: the excluded URL chunk-1.ts arriving with
content-type video/mp2t is recorded into the registry. -/
theorem claim1_cex :
    isExcluded "https://a/chunk-1.ts".toList = true ∧
    urlsOf (step initState (Event.headersReceived 1 "https://a/chunk-1.ts".toList
      [("Content-Type".toList, "video/mp2t".toList)] 0)) 1 =
      ["https://a/chunk-1.ts".toList] := by decide

/-- Claim C1, amended: a URL matching an exclude pattern is never recorded
on the network-body path (the handler leaves the state untouched); the
response-header path ignores the exclude patterns, and records any URL —
excluded or not — whose response carries a matching content-type. -/
theorem claim1_amended :
    (∀ (s : State) (t : Int) (url : List Char) (now : Int),
      isExcluded url = true → onBeforeRequest s t url now = s) ∧
    (∀ (s : State) (t : Int) (url : List Char)
        (hdrs : List (List Char × List Char)) (now : Int) (ct : List Char),
      s.videoDownloaderEnabled = true → (t == -1) = false →
      extractContentType hdrs = some ct → mimeMatches ct = true →
      url ∈ urlsOf (onHeadersReceived s t url hdrs now) t) := by
  constructor
  · intro s t url now hexcl
    simp [onBeforeRequest, hexcl]
  · intro s t url hdrs now ct henb ht hct hmime
    unfold onHeadersReceived
    rw [henb, ht]
    simp only [Bool.not_true, Bool.false_eq_true, if_false, hct, hmime, if_true]
    unfold urlsOf recordInState
    simp only
    rw [lookupTab_setTab_self]
    simp only [Option.getD_some]
    exact url_mem_recordVideo _ _

/-- Claim C1, witness for the amended theorem at concrete inputs. -/
theorem claim1_witness :
    (isExcluded "https://b/seg-2-v1-a1.ts".toList = true ∧
     onBeforeRequest initState 2 "https://b/seg-2-v1-a1.ts".toList 5 =
       initState) ∧
    (initState.videoDownloaderEnabled = true ∧
     "https://b/chunk-9.ts".toList ∈ urlsOf (onHeadersReceived initState 3
       "https://b/chunk-9.ts".toList
       [("content-type".toList, "video/mp2t".toList)] 1) 3) :=
  ⟨⟨by decide, claim1_amended.1 initState 2 _ 5 (by decide)⟩,
   ⟨by decide, claim1_amended.2 initState 3 _ _ 1 "video/mp2t".toList
     (by decide) (by decide) (by decide) (by decide)⟩⟩

/-- Claim C2: within one tab's registry, urls are pairwise distinct after
any event sequence, and observing an already-present url again — on
either detection path — leaves the whole state unchanged (first
observation wins; nothing is updated). -/
theorem claim2_url_unique :
    ∀ (evs : List Event) (t : Int),
      (urlsOf (runEvents evs) t).Nodup ∧
      ∀ (url : List Char) (now : Int) (hdrs : List (List Char × List Char)),
        url ∈ urlsOf (runEvents evs) t →
          onBeforeRequest (runEvents evs) t url now = runEvents evs ∧
          onHeadersReceived (runEvents evs) t url hdrs now = runEvents evs := by
  intro evs t
  have hinv := inv_runEvents evs
  constructor
  · unfold urlsOf
    cases hl : lookupTab (runEvents evs).detectedVideos t with
    | none => simp
    | some l =>
      simp only [Option.getD_some]
      exact (hinv.2 (t, l) (lookupTab_mem hl)).1
  · intro url now hdrs hm
    exact ⟨onBeforeRequest_duplicate hinv hm now,
           onHeadersReceived_duplicate hinv hm now⟩

/-- Claim C2, witness: a concrete duplicate observation is a no-op. -/
theorem claim2_witness :
    ("v.mp4".toList ∈
      urlsOf (runEvents [Event.beforeRequest 1 "v.mp4".toList 0]) 1) ∧
    onBeforeRequest (runEvents [Event.beforeRequest 1 "v.mp4".toList 0]) 1
      "v.mp4".toList 7 = runEvents [Event.beforeRequest 1 "v.mp4".toList 0] :=
  ⟨by decide,
   ((claim2_url_unique [Event.beforeRequest 1 "v.mp4".toList 0] 1).2
     "v.mp4".toList 7 [] (by decide)).1⟩

/-- Claim C3: every reachable tab list holds at most 50 records, and
pushing a fresh 51st record onto a full list of 50 drops exactly the
oldest entry, keeping the 50 most recent in insertion order. -/
theorem claim3_bound :
    (∀ (evs : List Event) (t : Int),
      ((lookupTab (runEvents evs).detectedVideos t).getD []).length ≤ 50) ∧
    ∀ (recs : List CandidateRecord) (r : CandidateRecord),
      recs.length = 50 → r.url ∉ recs.map CandidateRecord.url →
        recordVideo recs r = recs.drop 1 ++ [r] := by
  constructor
  · intro evs t
    have hinv := inv_runEvents evs
    cases hl : lookupTab (runEvents evs).detectedVideos t with
    | none => simp
    | some l =>
      simp only [Option.getD_some]
      exact (hinv.2 (t, l) (lookupTab_mem hl)).2
  · intro recs r h50 hnew
    exact recordVideo_full h50 hnew

/-- Claim C3, witness: pushing a 51st fresh record onto a concrete full
list drops the oldest. -/
theorem claim3_witness :
    fiftyRecords.length = 50 ∧
    (⟨['z'], 1, Origin.network, none⟩ : CandidateRecord).url ∉
      fiftyRecords.map CandidateRecord.url ∧
    recordVideo fiftyRecords ⟨['z'], 1, Origin.network, none⟩ =
      fiftyRecords.drop 1 ++ [⟨['z'], 1, Origin.network, none⟩] :=
  ⟨by decide, by decide,
   claim3_bound.2 fiftyRecords ⟨['z'], 1, Origin.network, none⟩
     (by decide) (by decide)⟩

/-- Claim C4: one sweep keeps a record iff `now - timestamp < maxAge`
(equivalently removes it iff `now - timestamp ≥ 30` minutes), keeps the
survivors in order, and removes a tab from the registry exactly when its
filtered list became empty. -/
theorem claim4_evict :
    ∀ (reg : Registry) (now t : Int) (l : List CandidateRecord),
      keysNodup reg → lookupTab reg t = some l →
      ((∀ r ∈ l,
         (r ∈ l.filter (fun v => decide (now - v.timestamp < maxAge)) ↔
           ¬(maxAge ≤ now - r.timestamp))) ∧
       List.Sublist (l.filter (fun v => decide (now - v.timestamp < maxAge))) l ∧
       lookupTab (evictExpired reg now) t =
         (if (l.filter (fun v => decide (now - v.timestamp < maxAge))).isEmpty
          then none
          else some (l.filter (fun v => decide (now - v.timestamp < maxAge))))) := by
  intro reg now t l hk hl
  refine ⟨?_, List.filter_sublist l, lookupTab_evictExpired hk now hl⟩
  intro r hr
  rw [List.mem_filter]
  simp [hr, not_le]

/-- Claim C4, witness: a concrete sweep at the 30-minute boundary evicts
the record aged exactly 30 minutes and keeps the younger one. -/
theorem claim4_witness :
    keysNodup sweepReg ∧ lookupTab sweepReg 1 = some sweepRecs ∧
    ((∀ r ∈ sweepRecs,
       (r ∈ sweepRecs.filter
           (fun v => decide ((1800000 : Int) - v.timestamp < maxAge)) ↔
         ¬(maxAge ≤ (1800000 : Int) - r.timestamp))) ∧
     List.Sublist (sweepRecs.filter
       (fun v => decide ((1800000 : Int) - v.timestamp < maxAge))) sweepRecs ∧
     lookupTab (evictExpired sweepReg 1800000) 1 =
       (if (sweepRecs.filter
             (fun v => decide ((1800000 : Int) - v.timestamp < maxAge))).isEmpty
        then none
        else some (sweepRecs.filter
          (fun v => decide ((1800000 : Int) - v.timestamp < maxAge))))) :=
  ⟨by unfold keysNodup; decide, by decide,
   claim4_evict sweepReg 1800000 1 sweepRecs
     (by unfold keysNodup; decide) (by decide)⟩

/-- Claim C5: while detection is disabled both observer paths record
nothing and getDetectedVideos answers an empty list with the disabled
flag; yet disabling deletes nothing — disabling then re-enabling leaves
the registry exactly as it was, and getDetectedVideos then returns the
previously stored records. -/
theorem claim5_disable_preserves :
    ∀ s : State,
      (s.videoDownloaderEnabled = false →
        (∀ (t : Int) (url : List Char) (now : Int),
          onBeforeRequest s t url now = s) ∧
        (∀ (t : Int) (url : List Char) (hdrs : List (List Char × List Char))
          (now : Int), onHeadersReceived s t url hdrs now = s) ∧
        (∀ t : Int, handleMessage s (Message.getDetectedVideos t) =
          (s, { videos := some [], disabled := some true }))) ∧
      (∀ t : Int,
        ((handleMessage ((handleMessage s
            (Message.setVideoDownloaderEnabled false)).1)
            (Message.setVideoDownloaderEnabled true)).1).detectedVideos =
          s.detectedVideos ∧
        (handleMessage ((handleMessage ((handleMessage s
            (Message.setVideoDownloaderEnabled false)).1)
            (Message.setVideoDownloaderEnabled true)).1)
            (Message.getDetectedVideos t)).2 =
          { videos := some ((lookupTab s.detectedVideos t).getD []) }) := by
  intro s
  constructor
  · intro hd
    refine ⟨?_, ?_, ?_⟩
    · intro t url now
      simp [onBeforeRequest, hd]
    · intro t url hdrs now
      simp [onHeadersReceived, hd]
    · intro t
      simp [handleMessage, hd]
  · intro t
    constructor
    · rfl
    · simp [handleMessage]

/-- Claim C5, witness: a concrete disabled state with a stored record is
untouched by an observation. -/
theorem claim5_witness :
    sDisabled.videoDownloaderEnabled = false ∧
    onBeforeRequest sDisabled 4 "x.mp4".toList 9 = sDisabled :=
  ⟨by decide,
   ((claim5_disable_preserves sDisabled).1 (by decide)).1 4 "x.mp4".toList 9⟩

/-- Claim C6, counterexample: the claim says the acceptance test is
case-insensitive throughout, but the substring checks are case-sensitive:
a URL containing STREAM (which contains "stream" case-insensitively) is
rejected while its lower-case variant is accepted. -/
theorem claim6_cex :
    listContains (lowerL "https://a/STREAM".toList)
      (lowerL "stream".toList) = true ∧
    isVideo "https://a/STREAM".toList = false ∧
    isVideo "https://a/stream".toList = true := by decide

/-- Claim C6, amended: the acceptance test matches the fixed extensions
case-insensitively, but the substrings "video" and "stream"
case-sensitively; the ".m3u8" substring clause is case-sensitive in the
source yet redundant, since ".m3u8" is also in the extension list. -/
theorem claim6_amended : ∀ url : List Char, isVideo url = acceptAmended url := by
  intro url
  unfold isVideo acceptAmended
  have hext : videoExtensions.any (fun ext => listContains (lowerL url) ext) =
      videoExtensions.any (fun ext => listContains (lowerL url) (lowerL ext)) := by
    apply any_congr_mem
    intro e he
    have hall : ∀ e2 ∈ videoExtensions, lowerL e2 = e2 := by decide
    rw [hall e he]
  rw [hext]
  apply or_absorb_third
  intro hm
  apply List.any_eq_true.mpr
  exact ⟨".m3u8".toList, by decide, listContains_map Char.toLower hm⟩

/-- Claim C7: with the classification steps allowed to throw, both
listeners always return normally with no blocking response — the
try/catch swallows every classification exception, so the observed
request proceeds unaffected. -/
theorem claim7_never_blocks :
    ∀ (exTest vidTest : List Char → Except (List Char) Bool)
      (ctTest : List (List Char × List Char) →
        Except (List Char) (Option (List Char)))
      (mimeTest : List Char → Except (List Char) Bool)
      (s : State) (t : Int) (url : List Char)
      (hdrs : List (List Char × List Char)) (now : Int),
      (∃ s1, onBeforeRequestE exTest vidTest s t url now =
        Except.ok (s1, none)) ∧
      (∃ s2, onHeadersReceivedE ctTest mimeTest s t url hdrs now =
        Except.ok (s2, none)) := by
  intro exTest vidTest ctTest mimeTest s t url hdrs now
  constructor
  · unfold onBeforeRequestE
    split
    · exact ⟨s, rfl⟩
    · rcases onBeforeRequestBody_shape exTest vidTest s t url now with
        ⟨e, he⟩ | ⟨s1, h1⟩
      · rw [he]
        exact ⟨s, rfl⟩
      · rw [h1]
        exact ⟨s1, rfl⟩
  · unfold onHeadersReceivedE
    split
    · exact ⟨s, rfl⟩
    · rcases onHeadersReceivedBody_shape ctTest mimeTest s t url hdrs now with
        ⟨e, he⟩ | ⟨s2, h2⟩
      · rw [he]
        exact ⟨s, rfl⟩
      · rw [h2]
        exact ⟨s2, rfl⟩

/-- Claim C8: the message handler answers each of the three control
messages with exactly the documented shape in both the enabled and the
disabled state, and a thrown exception is converted by the catch into a
structured error response instead of propagating. -/
theorem claim8_message_shapes :
    ∀ (s : State) (t : Int) (b : Bool) (e : List Char),
      handleMessage s (Message.getDetectedVideos t) =
        (s, if s.videoDownloaderEnabled then
              { videos := some ((lookupTab s.detectedVideos t).getD []) }
            else { videos := some [], disabled := some true }) ∧
      handleMessage s (Message.clearDetectedVideos t) =
        (if s.videoDownloaderEnabled then
           { s with detectedVideos := setTab s.detectedVideos t [] }
         else s,
         if s.videoDownloaderEnabled then { success := some true }
         else { success := some true, disabled := some true }) ∧
      handleMessage s (Message.setVideoDownloaderEnabled b) =
        ({ s with videoDownloaderEnabled := b },
         { success := some true, enabled := some b }) ∧
      handleMessageCaught (Except.error e) s = (s, { error := some e }) := by
  intro s t b e
  cases hb : s.videoDownloaderEnabled <;>
    simp [handleMessage, handleMessageCaught, hb]

/-- Claim C9: clearing a tab while enabled maps it to the empty list in
the registry (creating the entry when absent), getDetectedVideos still
answers the empty list for it, and the next sweep removes the
empty-sequenced tab from the registry entirely. -/
theorem claim9_clear_persists :
    ∀ (s : State) (t : Int), s.videoDownloaderEnabled = true →
      lookupTab ((handleMessage s
        (Message.clearDetectedVideos t)).1).detectedVideos t = some [] ∧
      (handleMessage ((handleMessage s (Message.clearDetectedVideos t)).1)
        (Message.getDetectedVideos t)).2 = { videos := some [] } ∧
      ∀ now : Int,
        lookupTab (evictExpired ((handleMessage s
          (Message.clearDetectedVideos t)).1).detectedVideos now) t = none := by
  intro s t he
  have hs1 : (handleMessage s (Message.clearDetectedVideos t)).1 =
      { s with detectedVideos := setTab s.detectedVideos t [] } := by
    simp [handleMessage, he]
  rw [hs1]
  refine ⟨lookupTab_setTab_self _ _ _, ?_, ?_⟩
  · simp [handleMessage, he, lookupTab_setTab_self]
  · intro now
    exact lookupTab_evict_setTab_empty _ _ _

/-- Claim C9, witness: clearing a concrete enabled state creates/empties
the tab entry. -/
theorem claim9_witness :
    sEnabled.videoDownloaderEnabled = true ∧
    lookupTab ((handleMessage sEnabled
      (Message.clearDetectedVideos 7)).1).detectedVideos 7 = some [] :=
  ⟨by decide, (claim9_clear_persists sEnabled 7 (by decide)).1⟩

theorem tabData_roundtrip (data : List (List Char)) :
    decodeTabData (btoaFn (utf8Encode (jsonStringifyStrArr data))) =
      some { url := (data.get? 0).getD [], title := [],
             groupTitle := jsFalsyIndex data 1,
             groupColor := jsFalsyIndex data 2 } := by
  unfold decodeTabData
  rw [atob_btoa (utf8Encode (jsonStringifyStrArr data))
    (utf8Encode_lt_256 _)]
  show (match utf8Decode (utf8Encode (jsonStringifyStrArr data)) with
    | none => none
    | some json =>
      match jsonParseStrArr json with
      | none => none
      | some data =>
        some ({ url := (data.get? 0).getD [], title := [],
                groupTitle := jsFalsyIndex data 1,
                groupColor := jsFalsyIndex data 2 } : DecodedTab)) = _
  rw [utf8Decode_encode]
  show (match jsonParseStrArr (jsonStringifyStrArr data) with
    | none => none
    | some data =>
      some ({ url := (data.get? 0).getD [], title := [],
              groupTitle := jsFalsyIndex data 1,
              groupColor := jsFalsyIndex data 2 } : DecodedTab)) = _
  rw [jsonParse_stringify]

/-- Claim C10: the tab-line codec round-trips — with a group carrying
non-empty title and color, decoding the encoding returns the url exactly,
an empty title, and the group title and color; with no group it returns
the url, empty title and null group fields. -/
theorem claim10_roundtrip :
    (∀ url : List Char,
      decodeTabData (encodeTabData url none) = some ⟨url, [], none, none⟩) ∧
    (∀ (url t c : List Char), t ≠ [] → c ≠ [] →
      decodeTabData (encodeTabData url (some ⟨t, c⟩)) =
        some ⟨url, [], some t, some c⟩) := by
  constructor
  · intro url
    show decodeTabData (btoaFn (utf8Encode (jsonStringifyStrArr [url]))) = _
    rw [tabData_roundtrip]
    rfl
  · intro url t c ht hc
    show decodeTabData
      (btoaFn (utf8Encode (jsonStringifyStrArr [url, t, c]))) = _
    rw [tabData_roundtrip]
    show some (⟨url, [], if t = [] then none else some t,
      if c = [] then none else some c⟩ : DecodedTab) = _
    rw [if_neg ht, if_neg hc]

/-- Claim C10, witness: the round-trip at a concrete url and group. -/
theorem claim10_witness :
    ("g".toList ≠ ([] : List Char)) ∧ ("blue".toList ≠ ([] : List Char)) ∧
    decodeTabData (encodeTabData "http://x".toList
      (some ⟨"g".toList, "blue".toList⟩)) =
      some ⟨"http://x".toList, [], some "g".toList, some "blue".toList⟩ :=
  ⟨by decide, by decide,
   claim10_roundtrip.2 "http://x".toList "g".toList "blue".toList
     (by decide) (by decide)⟩

end BraweExt
